import Mathlib

/-!
Verification of the word-catalog query functions of top-english-words
(src/functions.rs) against the repository specification.

The catalog itself (WORD_LIST and NUM_WORDS, defined in word_list.rs) only
enters the functions as an ordered list of strings together with its length,
so every definition below is parameterized by the catalog list.  Per the
spec invariant "len(catalog) == N", NUM_WORDS is the length of that list.

The Rust functions are generic over an output type T constructible from a
string slice; the embedding instantiates T with String (the conversion is
the identity on contents).

get_words_range performs one unguarded usize subtraction, NUM_WORDS - 1 in
the unbounded-end branch, which underflows (panics) when NUM_WORDS = 0.
To model this faithfully the range functions return
Option (Option (List String)): the outer none models the panic, while
some none models the Rust return value None (the "invalid range" signal)
and some (some ws) models Some(ws).
-/

namespace TopEnglishWords

/-- Mirror of std::ops::Bound with usize payloads, as consumed by
get_words_range via RangeBounds. -/
inductive Bound where
  | included : Nat → Bound
  | excluded : Nat → Bound
  | unbounded : Bound
deriving DecidableEq, Repr

/-- Mirror of an impl RangeBounds argument: the pair of values returned by
range.start_bound() and range.end_bound(). -/
structure RangeArg where
  start_bound : Bound
  end_bound : Bound
deriving DecidableEq, Repr

/-- Modelled from the spec: word_list.rs (not part of the provided sources)
supplies the constant NUM_WORDS, and the spec invariant states
len(catalog) == N, so NUM_WORDS is the length of the catalog list. -/
def NUM_WORDS (WORD_LIST : List String) : Nat := WORD_LIST.length

/-- Embedding of get_words (functions.rs lines 11-23): push T::from(word)
for every word of WORD_LIST, in order. -/
def get_words (WORD_LIST : List String) : List String :=
  WORD_LIST.map (fun word => word)

/-- Embedding of get_words_a (functions.rs lines 29-37): get_words, then a
stable ascending sort by the Ord instance of the element type. -/
def get_words_a (WORD_LIST : List String) : List String :=
  (get_words WORD_LIST).mergeSort (fun a b => a ≤ b)

/-- Embedding of functions.rs lines 74-85: the part of get_words_range after
both bounds have been resolved to start_index and end_index.  The validity
check returns None (modelled some none); otherwise the words at ranks
start_index..=end_index are collected via take/skip on WORD_LIST. -/
def get_words_range_core (WORD_LIST : List String) (start_index end_index : Nat) :
    Option (Option (List String)) :=
  if start_index > end_index ∨ end_index ≥ NUM_WORDS WORD_LIST then some none
  else some (some ((WORD_LIST.take (end_index + 1)).drop start_index))

/-- Embedding of functions.rs lines 56-60: resolution of the start bound.
An included start resolves to its value; an excluded or unbounded start
resolves to 0 (the excluded value is ignored by the code). -/
def start_index_of (b : Bound) : Nat :=
  match b with
  | .included i => i
  | .excluded _ => 0
  | .unbounded => 0

/-- Embedding of get_words_range (functions.rs lines 52-86).  The start bound
resolves via start_index_of; the end bound resolves to its value when
included, to value - 1 when excluded and positive (an excluded end of 0
returns None immediately), and to NUM_WORDS - 1 when unbounded.  The outer
none models the usize underflow panic of NUM_WORDS - 1 when NUM_WORDS = 0. -/
def get_words_range (WORD_LIST : List String) (range : RangeArg) :
    Option (Option (List String)) :=
  let start_index : Nat := start_index_of range.start_bound
  match range.end_bound with
  | .included i => get_words_range_core WORD_LIST start_index i
  | .excluded i =>
      if i > 0 then get_words_range_core WORD_LIST start_index (i - 1)
      else some none
  | .unbounded =>
      if 0 < NUM_WORDS WORD_LIST then
        get_words_range_core WORD_LIST start_index (NUM_WORDS WORD_LIST - 1)
      else none

/-- Embedding of get_words_range_a (functions.rs lines 100-108): delegate to
get_words_range, propagate its None (and a panic propagates as well), and
sort the selected words ascending before returning them. -/
def get_words_range_a (WORD_LIST : List String) (range : RangeArg) :
    Option (Option (List String)) :=
  match get_words_range WORD_LIST range with
  | none => none
  | some none => some none
  | some (some words) => some (some (words.mergeSort (fun a b => a ≤ b)))

/-- Embedding of get_word (functions.rs lines 114-119): WORD_LIST.get
followed by the T::from conversion, None when the index is out of bounds. -/
def get_word (WORD_LIST : List String) (position : Nat) : Option String :=
  match WORD_LIST[position]? with
  | none => none
  | some word => some word

/-- Embedding of is_top_word (functions.rs lines 129-131): index of the
first catalog entry equal to the given word. -/
def is_top_word (WORD_LIST : List String) (word : String) : Option Nat :=
  WORD_LIST.findIdx? (fun w => w == word)

/-- Resolved start index of a range in the sense of the spec, as an
integer: included start = its value, excluded or unbounded start = 0. -/
def resolved_start (range : RangeArg) : Int :=
  match range.start_bound with
  | .included i => (i : Int)
  | .excluded _ => 0
  | .unbounded => 0

/-- Resolved end index of a range in the sense of the spec, as an integer:
included end = its value, excluded end = its value - 1, unbounded end =
NUM_WORDS - 1. -/
def resolved_end (WORD_LIST : List String) (range : RangeArg) : Int :=
  match range.end_bound with
  | .included i => (i : Int)
  | .excluded i => (i : Int) - 1
  | .unbounded => (NUM_WORDS WORD_LIST : Int) - 1

/-- Unfolding of get_words_range at an included end bound. -/
theorem get_words_range_included (WORD_LIST : List String) (sb : Bound) (i : Nat) :
    get_words_range WORD_LIST ⟨sb, Bound.included i⟩ =
      get_words_range_core WORD_LIST (start_index_of sb) i := rfl

/-- Unfolding of get_words_range at an excluded end bound. -/
theorem get_words_range_excluded (WORD_LIST : List String) (sb : Bound) (i : Nat) :
    get_words_range WORD_LIST ⟨sb, Bound.excluded i⟩ =
      if i > 0 then get_words_range_core WORD_LIST (start_index_of sb) (i - 1)
      else some none := rfl

/-- Unfolding of get_words_range at an unbounded end bound. -/
theorem get_words_range_unbounded (WORD_LIST : List String) (sb : Bound) :
    get_words_range WORD_LIST ⟨sb, Bound.unbounded⟩ =
      if 0 < NUM_WORDS WORD_LIST then
        get_words_range_core WORD_LIST (start_index_of sb) (NUM_WORDS WORD_LIST - 1)
      else none := rfl

/-- Helper: the core of get_words_range always returns a value and never
panics, whatever the resolved indices are. -/
theorem get_words_range_core_isSome (WORD_LIST : List String)
    (start_index end_index : Nat) :
    ∃ res : Option (List String),
      get_words_range_core WORD_LIST start_index end_index = some res := by
  rw [get_words_range_core]
  split
  · exact ⟨none, rfl⟩
  · exact ⟨_, rfl⟩

/-- Helper: the resolved start index of the spec agrees with the start
index the code computes, whatever the end bound is. -/
theorem resolved_start_eq (sb eb : Bound) :
    resolved_start ⟨sb, eb⟩ = ((start_index_of sb : Nat) : Int) := by
  cases sb <;> rfl

/-- Unfolding of resolved_end at an included end bound. -/
theorem resolved_end_included (WORD_LIST : List String) (sb : Bound) (i : Nat) :
    resolved_end WORD_LIST ⟨sb, Bound.included i⟩ = (i : Int) := rfl

/-- Unfolding of resolved_end at an excluded end bound. -/
theorem resolved_end_excluded (WORD_LIST : List String) (sb : Bound) (i : Nat) :
    resolved_end WORD_LIST ⟨sb, Bound.excluded i⟩ = (i : Int) - 1 := rfl

/-- Unfolding of resolved_end at an unbounded end bound. -/
theorem resolved_end_unbounded (WORD_LIST : List String) (sb : Bound) :
    resolved_end WORD_LIST ⟨sb, Bound.unbounded⟩ =
      (NUM_WORDS WORD_LIST : Int) - 1 := rfl

/-- Helper: behaviour of the core of get_words_range: it signals an invalid
range exactly when the resolved indices are inverted or the end index is
out of bounds, and otherwise returns the take/drop slice, whose length is
end_index - start_index + 1. -/
theorem get_words_range_core_eq (WORD_LIST : List String) (s e : Nat) :
    (get_words_range_core WORD_LIST s e = some none ↔
      s > e ∨ e ≥ NUM_WORDS WORD_LIST) ∧
    (s ≤ e → e < NUM_WORDS WORD_LIST →
      get_words_range_core WORD_LIST s e =
        some (some ((WORD_LIST.take (e + 1)).drop s)) ∧
      ((WORD_LIST.take (e + 1)).drop s).length = e - s + 1) := by
  rw [get_words_range_core]
  by_cases h : s > e ∨ e ≥ NUM_WORDS WORD_LIST
  · rw [if_pos h]
    exact ⟨⟨fun _ => h, fun _ => rfl⟩, fun h1 h2 => absurd h (by omega)⟩
  · rw [if_neg h]
    rw [NUM_WORDS] at h ⊢
    refine ⟨⟨fun hx => by simp at hx, fun hx => absurd hx h⟩, fun h1 h2 => ⟨rfl, ?_⟩⟩
    rw [List.length_drop, List.length_take]
    omega

/-- Helper: get_words is the catalog list itself (the element conversion is
the identity). -/
theorem get_words_eq (WORD_LIST : List String) :
    get_words WORD_LIST = WORD_LIST := by
  simp [get_words]

/-- C9: get_words always succeeds, returns exactly NUM_WORDS words, and
the element at output index i is the catalog word of rank i. -/
theorem claim_C9 (WORD_LIST : List String) :
    (get_words WORD_LIST).length = NUM_WORDS WORD_LIST ∧
    ∀ i : Nat, (get_words WORD_LIST)[i]? = WORD_LIST[i]? := by
  refine ⟨by simp [get_words, NUM_WORDS], fun i => ?_⟩
  simp [get_words]

/-- C6: for a rank below NUM_WORDS, get_word returns exactly the word of
get_words at that rank; for a rank at or above NUM_WORDS it returns none. -/
theorem claim_C6 (WORD_LIST : List String) (r : Nat) :
    (r < NUM_WORDS WORD_LIST → get_word WORD_LIST r = (get_words WORD_LIST)[r]? ∧
      ∃ w : String, get_word WORD_LIST r = some w) ∧
    (NUM_WORDS WORD_LIST ≤ r → get_word WORD_LIST r = none) := by
  constructor
  · intro h
    rw [NUM_WORDS] at h
    have hw : WORD_LIST[r]? = some (WORD_LIST.get ⟨r, h⟩) := List.getElem?_eq_getElem h
    constructor
    · simp [get_word, get_words, hw]
    · exact ⟨WORD_LIST.get ⟨r, h⟩, by simp [get_word, hw]⟩
  · intro h
    rw [NUM_WORDS] at h
    simp [get_word, List.getElem?_eq_none h]

/-- C6 witness: on the catalog of three words, rank 1 is in bounds and
returns the word of rank 1, while rank 5 is out of bounds and returns
none. -/
theorem claim_C6_witness :
    (1 < NUM_WORDS ["the", "of", "and"] ∧
      (get_word ["the", "of", "and"] 1 = (get_words ["the", "of", "and"])[1]? ∧
        ∃ w : String, get_word ["the", "of", "and"] 1 = some w)) ∧
    (NUM_WORDS ["the", "of", "and"] ≤ 5 ∧ get_word ["the", "of", "and"] 5 = none) :=
  ⟨⟨by decide, (claim_C6 ["the", "of", "and"] 1).1 (by decide)⟩,
   ⟨by decide, (claim_C6 ["the", "of", "and"] 5).2 (by decide)⟩⟩

/-- C4 counterexample: the claim that an excluded start bound with value s
selects from rank s + 1 fails at the catalog a, b, c with the range
(excluded 0, included 2): the code returns all three words, while starting
at rank 1 returns only two. -/
theorem claim_C4_counterexample :
    ¬ (get_words_range ["a", "b", "c"] ⟨Bound.excluded 0, Bound.included 2⟩ =
       get_words_range ["a", "b", "c"] ⟨Bound.included 1, Bound.included 2⟩) := by
  decide

/-- C4 amended: the code ignores the value of an excluded start bound and
treats it as rank 0, so a range with an excluded start behaves exactly like
the same range with start included at 0 (equivalently, unbounded start). -/
theorem claim_C4_amended (WORD_LIST : List String) (s : Nat) (eb : Bound) :
    get_words_range WORD_LIST ⟨Bound.excluded s, eb⟩ =
      get_words_range WORD_LIST ⟨Bound.included 0, eb⟩ := rfl

/-- C10: whenever the catalog is nonempty, get_words_range never panics:
for every range argument it returns some result (Some or None), every
subtraction being guarded and every catalog access in bounds. -/
theorem claim_C10 (WORD_LIST : List String) (range : RangeArg)
    (h : 1 ≤ NUM_WORDS WORD_LIST) :
    ∃ res : Option (List String), get_words_range WORD_LIST range = some res := by
  rcases range with ⟨sb, eb⟩
  cases eb with
  | included i =>
      rw [get_words_range_included]
      exact get_words_range_core_isSome WORD_LIST (start_index_of sb) i
  | excluded i =>
      rw [get_words_range_excluded]
      by_cases hi : i > 0
      · rw [if_pos hi]
        exact get_words_range_core_isSome WORD_LIST (start_index_of sb) (i - 1)
      · rw [if_neg hi]
        exact ⟨none, rfl⟩
  | unbounded =>
      rw [get_words_range_unbounded, if_pos (by omega)]
      exact get_words_range_core_isSome WORD_LIST (start_index_of sb) (NUM_WORDS WORD_LIST - 1)

/-- C10 witness: on the nonempty catalog a, b the function returns a value
(here the invalid-range signal None) for the range with excluded start 7
and included end 0, rather than panicking. -/
theorem claim_C10_witness :
    1 ≤ NUM_WORDS ["a", "b"] ∧
    ∃ res : Option (List String),
      get_words_range ["a", "b"] ⟨Bound.excluded 7, Bound.included 0⟩ = some res :=
  ⟨by decide, claim_C10 ["a", "b"] ⟨Bound.excluded 7, Bound.included 0⟩ (by decide)⟩

/-- C1: for all lo <= hi < NUM_WORDS, get_words_range on the inclusive
range lo..=hi returns Some of a list of length hi - lo + 1 that equals the
slice of get_words at indices lo through hi inclusive, in rank order. -/
theorem claim_C1 (WORD_LIST : List String) (lo hi : Nat)
    (h1 : lo ≤ hi) (h2 : hi < NUM_WORDS WORD_LIST) :
    ∃ ws : List String,
      get_words_range WORD_LIST ⟨Bound.included lo, Bound.included hi⟩ =
        some (some ws) ∧
      ws.length = hi - lo + 1 ∧
      ws = ((get_words WORD_LIST).drop lo).take (hi - lo + 1) := by
  obtain ⟨heq, hlen⟩ :=
    (get_words_range_core_eq WORD_LIST lo hi).2 h1 h2
  refine ⟨(WORD_LIST.take (hi + 1)).drop lo, ?_, hlen, ?_⟩
  · rw [get_words_range_included]
    exact heq
  · rw [get_words_eq, List.take_drop,
      show lo + (hi - lo + 1) = hi + 1 from by omega]

/-- C1 witness: on the four-word catalog, the inclusive range 1..=2
returns exactly the two words of ranks 1 and 2. -/
theorem claim_C1_witness :
    1 ≤ 2 ∧ 2 < NUM_WORDS ["a", "b", "c", "d"] ∧
    ∃ ws : List String,
      get_words_range ["a", "b", "c", "d"] ⟨Bound.included 1, Bound.included 2⟩ =
        some (some ws) ∧
      ws.length = 2 - 1 + 1 ∧
      ws = ((get_words ["a", "b", "c", "d"]).drop 1).take (2 - 1 + 1) :=
  ⟨by decide, by decide, claim_C1 ["a", "b", "c", "d"] 1 2 (by decide) (by decide)⟩

/-- C2: on a nonempty catalog, get_words_range returns the invalid signal
None exactly when the resolved start index exceeds the resolved end index
or the resolved end index is at least NUM_WORDS (indices taken as
integers, so that an excluded end of 0 resolves below every start); in all
other cases it returns Some of a nonempty list. -/
theorem claim_C2 (WORD_LIST : List String) (range : RangeArg)
    (hN : 1 ≤ NUM_WORDS WORD_LIST) :
    (get_words_range WORD_LIST range = some none ↔
      resolved_start range > resolved_end WORD_LIST range ∨
      resolved_end WORD_LIST range ≥ (NUM_WORDS WORD_LIST : Int)) ∧
    (¬ (resolved_start range > resolved_end WORD_LIST range ∨
        resolved_end WORD_LIST range ≥ (NUM_WORDS WORD_LIST : Int)) →
      ∃ ws : List String,
        get_words_range WORD_LIST range = some (some ws) ∧ ws ≠ []) := by
  rcases range with ⟨sb, eb⟩
  rw [resolved_start_eq]
  cases eb with
  | included i =>
      rw [get_words_range_included, resolved_end_included]
      have hc := get_words_range_core_eq WORD_LIST (start_index_of sb) i
      constructor
      · rw [hc.1]
        omega
      · intro hno
        obtain ⟨heq, hlen⟩ := hc.2 (by omega) (by omega)
        exact ⟨_, heq, List.length_pos.mp (by omega)⟩
  | excluded i =>
      rw [get_words_range_excluded, resolved_end_excluded]
      by_cases hi : i > 0
      · rw [if_pos hi]
        have hc := get_words_range_core_eq WORD_LIST (start_index_of sb) (i - 1)
        constructor
        · rw [hc.1]
          omega
        · intro hno
          obtain ⟨heq, hlen⟩ := hc.2 (by omega) (by omega)
          exact ⟨_, heq, List.length_pos.mp (by omega)⟩
      · rw [if_neg hi]
        have hi0 : i = 0 := by omega
        subst hi0
        constructor
        · exact ⟨fun _ => Or.inl (by omega), fun _ => rfl⟩
        · intro hno
          exact absurd (Or.inl (by omega)) hno
  | unbounded =>
      rw [get_words_range_unbounded, if_pos (by omega), resolved_end_unbounded]
      have hc :=
        get_words_range_core_eq WORD_LIST (start_index_of sb) (NUM_WORDS WORD_LIST - 1)
      constructor
      · rw [hc.1]
        omega
      · intro hno
        obtain ⟨heq, hlen⟩ := hc.2 (by omega) (by omega)
        exact ⟨_, heq, List.length_pos.mp (by omega)⟩

/-- C2 witness: on the three-word catalog with the range of included start
1 and excluded end 3, the invalid-signal characterization and the nonempty
success case both hold. -/
theorem claim_C2_witness :
    1 ≤ NUM_WORDS ["a", "b", "c"] ∧
    ((get_words_range ["a", "b", "c"] ⟨Bound.included 1, Bound.excluded 3⟩ = some none ↔
      resolved_start ⟨Bound.included 1, Bound.excluded 3⟩ >
        resolved_end ["a", "b", "c"] ⟨Bound.included 1, Bound.excluded 3⟩ ∨
      resolved_end ["a", "b", "c"] ⟨Bound.included 1, Bound.excluded 3⟩ ≥
        (NUM_WORDS ["a", "b", "c"] : Int)) ∧
    (¬ (resolved_start ⟨Bound.included 1, Bound.excluded 3⟩ >
          resolved_end ["a", "b", "c"] ⟨Bound.included 1, Bound.excluded 3⟩ ∨
        resolved_end ["a", "b", "c"] ⟨Bound.included 1, Bound.excluded 3⟩ ≥
          (NUM_WORDS ["a", "b", "c"] : Int)) →
      ∃ ws : List String,
        get_words_range ["a", "b", "c"] ⟨Bound.included 1, Bound.excluded 3⟩ =
          some (some ws) ∧ ws ≠ [])) :=
  ⟨by decide,
   claim_C2 ["a", "b", "c"] ⟨Bound.included 1, Bound.excluded 3⟩ (by decide)⟩

/-- C3: an excluded end bound of value 0 makes both get_words_range and
get_words_range_a return the invalid signal None rather than an empty
list; an excluded end bound of positive value e behaves exactly as the
included end bound e - 1; an unbounded end behaves exactly as the included
end bound NUM_WORDS - 1 (on a nonempty catalog). -/
theorem claim_C3 (WORD_LIST : List String) (sb : Bound) :
    get_words_range WORD_LIST ⟨sb, Bound.excluded 0⟩ = some none ∧
    get_words_range_a WORD_LIST ⟨sb, Bound.excluded 0⟩ = some none ∧
    (∀ e : Nat, 0 < e →
      get_words_range WORD_LIST ⟨sb, Bound.excluded e⟩ =
        get_words_range WORD_LIST ⟨sb, Bound.included (e - 1)⟩) ∧
    (0 < NUM_WORDS WORD_LIST →
      get_words_range WORD_LIST ⟨sb, Bound.unbounded⟩ =
        get_words_range WORD_LIST ⟨sb, Bound.included (NUM_WORDS WORD_LIST - 1)⟩) := by
  refine ⟨rfl, rfl, fun e he => ?_, fun hN => ?_⟩
  · rw [get_words_range_excluded, if_pos he, get_words_range_included]
  · rw [get_words_range_unbounded, if_pos hN, get_words_range_included]

/-- C3 witness: on the two-word catalog with included start 0, the
excluded end 0 yields None for both range functions, excluded end 2 agrees
with included end 1, and the unbounded end agrees with included end
NUM_WORDS - 1. -/
theorem claim_C3_witness :
    get_words_range ["a", "b"] ⟨Bound.included 0, Bound.excluded 0⟩ = some none ∧
    get_words_range_a ["a", "b"] ⟨Bound.included 0, Bound.excluded 0⟩ = some none ∧
    (0 < 2 ∧
      get_words_range ["a", "b"] ⟨Bound.included 0, Bound.excluded 2⟩ =
        get_words_range ["a", "b"] ⟨Bound.included 0, Bound.included (2 - 1)⟩) ∧
    (0 < NUM_WORDS ["a", "b"] ∧
      get_words_range ["a", "b"] ⟨Bound.included 0, Bound.unbounded⟩ =
        get_words_range ["a", "b"] ⟨Bound.included 0,
          Bound.included (NUM_WORDS ["a", "b"] - 1)⟩) :=
  ⟨(claim_C3 ["a", "b"] (Bound.included 0)).1,
   (claim_C3 ["a", "b"] (Bound.included 0)).2.1,
   ⟨by decide, (claim_C3 ["a", "b"] (Bound.included 0)).2.2.1 2 (by decide)⟩,
   ⟨by decide, (claim_C3 ["a", "b"] (Bound.included 0)).2.2.2 (by decide)⟩⟩

/-- C5: on a duplicate-free catalog (the spec invariant), is_top_word
returns some r exactly when the word of rank r in get_words is the queried
word, and returns none exactly when the queried word is absent; the
comparison is exact string equality. -/
theorem claim_C5 (WORD_LIST : List String) (word : String)
    (hnd : WORD_LIST.Nodup) :
    (∀ r : Nat, is_top_word WORD_LIST word = some r ↔
      (get_words WORD_LIST)[r]? = some word) ∧
    (is_top_word WORD_LIST word = none ↔ ¬ word ∈ WORD_LIST) := by
  rw [get_words_eq]
  constructor
  · intro r
    rw [is_top_word, List.findIdx?_eq_some_iff_getElem]
    constructor
    · rintro ⟨h, hp, -⟩
      rw [List.getElem?_eq_getElem h]
      simpa using hp
    · intro h
      obtain ⟨hlt, hEq⟩ := List.getElem?_eq_some_iff.mp h
      refine ⟨hlt, by simp [hEq], fun j hj => ?_⟩
      simp only [beq_iff_eq]
      intro hpj
      have : j = r :=
        (@List.Nodup.getElem_inj_iff _ WORD_LIST hnd j (Nat.lt_trans hj hlt)
          r hlt).mp (hpj.trans hEq.symm)
      omega
  · rw [is_top_word, List.findIdx?_eq_none_iff]
    constructor
    · intro hall hmem
      have := hall word hmem
      simp at this
    · intro hnot x hx
      simp only [beq_eq_false_iff_ne]
      rintro rfl
      exact hnot hx

/-- C5 witness: on the duplicate-free catalog of two words, the rank
characterization and the absence characterization hold for the word of
rank 1. -/
theorem claim_C5_witness :
    List.Nodup ["the", "of"] ∧
    ((∀ r : Nat, is_top_word ["the", "of"] "of" = some r ↔
      (get_words ["the", "of"])[r]? = some "of") ∧
    (is_top_word ["the", "of"] "of" = none ↔ ¬ "of" ∈ ["the", "of"])) :=
  ⟨by decide, claim_C5 ["the", "of"] "of" (by decide)⟩

/-- C7: get_words_range_a returns the invalid signal None exactly when
get_words_range does (and panics exactly when it does), and whenever
get_words_range succeeds with a list of words, get_words_range_a succeeds
with an ascending-sorted permutation of that list. -/
theorem claim_C7 (WORD_LIST : List String) (range : RangeArg) :
    (get_words_range_a WORD_LIST range = some none ↔
      get_words_range WORD_LIST range = some none) ∧
    (get_words_range_a WORD_LIST range = none ↔
      get_words_range WORD_LIST range = none) ∧
    (∀ words : List String,
      get_words_range WORD_LIST range = some (some words) →
      ∃ sorted_words : List String,
        get_words_range_a WORD_LIST range = some (some sorted_words) ∧
        sorted_words.Perm words ∧ sorted_words.Sorted (· ≤ ·)) := by
  rcases h : get_words_range WORD_LIST range with - | (- | words)
  · rw [get_words_range_a, h]
    exact ⟨by simp, by simp, fun words hw => by simp at hw⟩
  · rw [get_words_range_a, h]
    exact ⟨by simp, by simp, fun words hw => by simp at hw⟩
  · rw [get_words_range_a, h]
    refine ⟨by simp, by simp, fun ws hw => ?_⟩
    obtain rfl : words = ws := by simpa using hw
    exact ⟨words.mergeSort (fun a b => a ≤ b), rfl,
      List.mergeSort_perm words _, List.sorted_mergeSort' words⟩

/-- C7 witness: on the catalog with words b then a, the full inclusive
range succeeds, and get_words_range_a returns a sorted permutation of the
selected words. -/
theorem claim_C7_witness :
    get_words_range ["b", "a"] ⟨Bound.included 0, Bound.included 1⟩ =
      some (some ["b", "a"]) ∧
    ∃ sorted_words : List String,
      get_words_range_a ["b", "a"] ⟨Bound.included 0, Bound.included 1⟩ =
        some (some sorted_words) ∧
      sorted_words.Perm ["b", "a"] ∧ sorted_words.Sorted (· ≤ ·) :=
  ⟨by decide,
   (claim_C7 ["b", "a"] ⟨Bound.included 0, Bound.included 1⟩).2.2
     ["b", "a"] (by decide)⟩

/-- C8: get_words_a returns a permutation of get_words (the same multiset
of words) sorted ascending under the total lexicographic order on strings,
and it always succeeds. -/
theorem claim_C8 (WORD_LIST : List String) :
    (get_words_a WORD_LIST).Perm (get_words WORD_LIST) ∧
    (get_words_a WORD_LIST).Sorted (· ≤ ·) := by
  constructor
  · exact List.mergeSort_perm (get_words WORD_LIST) _
  · exact List.sorted_mergeSort' (get_words WORD_LIST)

end TopEnglishWords
